import Mathlib

/-!
File registry mock server (server/mock-server.js)

A shallow embedding of the three request handlers of the mock API and of the
two module-level variables they share (the array DB and the number idCounter).

Modelling conventions.

* Record ids and the counter are natural numbers. The source holds them in
  JavaScript numbers, which are exact for every integer below 2^53; the model
  is the source on that range (the counter starts at 100 and grows by one per
  uploaded part).
* The upload handler is modelled on the array req.files that the multipart
  decoder hands to it (one element per file part, possibly none).
* The text produced by each call of new Date().toISOString() is an input of
  the model: every uploaded part is paired with the timestamp read while it is
  processed, and the seed state takes its two timestamps as parameters.
* The value of Number(req.params.id) is a PathId: either a natural number or
  some other number (NaN, a negative, a fraction, an infinity), which is
  strictly unequal to every record id.
-/

namespace MockServer

/-- One entry of the array DB (lines 7, 8 and 19 of the source). -/
structure FileRecord where
  id : Nat
  name : String
  size : Nat
  createdAt : String
  type : String
  deriving DecidableEq, Repr

/-- One element of req.files as produced by the multipart decoder: the fields
the handler reads. A missing mimetype is none. -/
structure UploadedFile where
  originalname : String
  size : Nat
  mimetype : Option String
  deriving DecidableEq, Repr

/-- The module-level state: the array DB and the number idCounter. -/
structure Registry where
  DB : List FileRecord
  idCounter : Nat
  deriving DecidableEq, Repr

/-- The number obtained from the path parameter by Number(req.params.id). -/
inductive PathId where
  | nat (n : Nat)
  | other
  deriving DecidableEq, Repr

/-- The body of the answer of the delete handler, the object with field ok. -/
structure Ack where
  ok : Bool
  deriving DecidableEq, Repr

/-- Lines 6 to 10: the initial DB and idCounter; t1 and t2 are the two
timestamps computed at start-up. -/
def seed (t1 t2 : String) : Registry :=
  { DB :=
      [ { id := 1, name := "Документ.pdf", size := 234567, createdAt := t1,
          type := "application/pdf" },
        { id := 2, name := "Фото.jpg", size := 1456789, createdAt := t2,
          type := "image/jpeg" } ],
    idCounter := 100 }

/-- The expression f.mimetype || 'application/octet-stream' of line 19: the
right operand is taken when the left one is missing or the empty string. -/
def mimetypeOrDefault (m : Option String) : String :=
  match m with
  | some s => if s = "" then "application/octet-stream" else s
  | none => "application/octet-stream"

/-- The object literal of line 19, built with the current counter value c for
the file f, t being the timestamp read at that moment. -/
def mkItem (c : Nat) (f : UploadedFile) (t : String) : FileRecord :=
  { id := c, name := f.originalname, size := f.size, createdAt := t,
    type := mimetypeOrDefault f.mimetype }

/-- Handler of GET /api/files (line 14): answers with DB, changes nothing. -/
def getFiles (s : Registry) : Registry × List FileRecord :=
  (s, s.DB)

/-- Handler of POST /api/files (lines 16 to 24): req.files.map visits the
files in order; each visit post-increments idCounter, puts the new item at
the front of DB (unshift) and yields the item; the answer is the mapped
array. -/
def postFiles (s : Registry) : List (UploadedFile × String) → Registry × List FileRecord
  | [] => (s, [])
  | (f, t) :: rest =>
    let item := mkItem s.idCounter f t
    let r := postFiles { DB := item :: s.DB, idCounter := s.idCounter + 1 } rest
    (r.1, item :: r.2)

/-- The test f.id !== id of line 28. -/
def idNe (fid : Nat) (id : PathId) : Bool :=
  match id with
  | PathId.nat n => decide (fid ≠ n)
  | PathId.other => true

/-- Handler of DELETE /api/files/:id (lines 26 to 30): DB is replaced by its
filter, the answer is always the object with ok true. -/
def deleteFile (s : Registry) (id : PathId) : Registry × Ack :=
  ({ DB := s.DB.filter (fun f => idNe f.id id), idCounter := s.idCounter }, { ok := true })

/-- A request to one of the three routes. -/
inductive Op where
  | list
  | upload (files : List (UploadedFile × String))
  | delete (id : PathId)
  deriving DecidableEq, Repr

/-- The body of an answer. -/
inductive Response where
  | files (rs : List FileRecord)
  | ack (a : Ack)
  deriving DecidableEq, Repr

/-- Dispatch of one request to its handler. -/
def step (s : Registry) : Op → Registry × Response
  | Op.list => ((getFiles s).1, Response.files (getFiles s).2)
  | Op.upload fs => ((postFiles s fs).1, Response.files (postFiles s fs).2)
  | Op.delete i => ((deleteFile s i).1, Response.ack (deleteFile s i).2)

/-- The requests of a list handled one after the other; the answers are
collected together with the request they answer, oldest first. -/
def runTrace (s : Registry) : List Op → Registry × List (Op × Response)
  | [] => (s, [])
  | o :: os =>
    let r := runTrace (step s o).1 os
    (r.1, (o, (step s o).2) :: r.2)

/-- The state after a sequence of requests. -/
def run (s : Registry) (ops : List Op) : Registry :=
  (runTrace s ops).1

/-- The records returned by the uploads of a trace, oldest first. -/
def returned : List (Op × Response) → List FileRecord
  | [] => []
  | (Op.upload _, Response.files rs) :: tr => rs ++ returned tr
  | _ :: tr => returned tr

/-- The ids of a list of records, front to back. -/
def ids (l : List FileRecord) : List Nat :=
  l.map (fun r => r.id)

/-- The records one request adds to the answers of the uploads. -/
def issuedBy (s : Registry) : Op → List FileRecord
  | Op.upload fs => (postFiles s fs).2
  | _ => []

/-- The counter is above every id in DB, the ids in DB are pairwise distinct,
a record with an id of at least 100 has only larger ids in front of it, and
the counter is at least 100. -/
def Inv (s : Registry) : Prop :=
  (∀ r ∈ s.DB, r.id < s.idCounter) ∧ (ids s.DB).Nodup ∧
    s.DB.Pairwise (fun a b => 100 ≤ b.id → b.id < a.id) ∧ 100 ≤ s.idCounter

instance (s : Registry) : Decidable (Inv s) := by
  unfold Inv
  infer_instance

/-- A single file and the timestamp read for it, used in the worked examples. -/
def sampleUpload : UploadedFile × String :=
  ({ originalname := "a.txt", size := 10, mimetype := some "text/plain" }, "now")

/-- The first seed record when both start-up timestamps are the empty string. -/
def sampleSeedRecord : FileRecord :=
  { id := 1, name := "Документ.pdf", size := 234567, createdAt := "", type := "application/pdf" }

/-! ## The upload handler -/

theorem postFiles_nil (s : Registry) : postFiles s [] = (s, []) := rfl

theorem postFiles_cons (s : Registry) (f : UploadedFile) (t : String)
    (rest : List (UploadedFile × String)) :
    postFiles s ((f, t) :: rest) =
      ((postFiles { DB := mkItem s.idCounter f t :: s.DB, idCounter := s.idCounter + 1 } rest).1,
        mkItem s.idCounter f t ::
          (postFiles { DB := mkItem s.idCounter f t :: s.DB, idCounter := s.idCounter + 1 } rest).2) :=
  rfl

theorem postFiles_length (fs : List (UploadedFile × String)) :
    ∀ s : Registry, (postFiles s fs).2.length = fs.length := by
  induction fs with
  | nil => intro s; rfl
  | cons p rest ih =>
    intro s
    obtain ⟨f, t⟩ := p
    rw [postFiles_cons]
    simp [ih]

theorem postFiles_idCounter (fs : List (UploadedFile × String)) :
    ∀ s : Registry, (postFiles s fs).1.idCounter = s.idCounter + fs.length := by
  induction fs with
  | nil => intro s; rfl
  | cons p rest ih =>
    intro s
    obtain ⟨f, t⟩ := p
    rw [postFiles_cons]
    simp only [ih, List.length_cons]
    omega

theorem postFiles_DB (fs : List (UploadedFile × String)) :
    ∀ s : Registry, (postFiles s fs).1.DB = (postFiles s fs).2.reverse ++ s.DB := by
  induction fs with
  | nil => intro s; rfl
  | cons p rest ih =>
    intro s
    obtain ⟨f, t⟩ := p
    rw [postFiles_cons]
    simp [ih]

theorem postFiles_getElem? (fs : List (UploadedFile × String)) :
    ∀ (s : Registry) (k : Nat),
      (postFiles s fs).2[k]? = fs[k]?.map (fun p => mkItem (s.idCounter + k) p.1 p.2) := by
  induction fs with
  | nil => intro s k; rfl
  | cons p rest ih =>
    intro s k
    obtain ⟨f, t⟩ := p
    rw [postFiles_cons]
    cases k with
    | zero => simp
    | succ k =>
      simp only [List.getElem?_cons_succ, ih]
      have e : s.idCounter + 1 + k = s.idCounter + (k + 1) := by omega
      simp [e]

theorem postFiles_ids (fs : List (UploadedFile × String)) :
    ∀ s : Registry, ids (postFiles s fs).2 = List.range' s.idCounter fs.length := by
  induction fs with
  | nil => intro s; rfl
  | cons p rest ih =>
    intro s
    obtain ⟨f, t⟩ := p
    rw [postFiles_cons]
    have h := ih { DB := mkItem s.idCounter f t :: s.DB, idCounter := s.idCounter + 1 }
    simp only [ids] at h ⊢
    simp only [List.map_cons, h, List.length_cons, List.range'_succ]
    rfl

theorem mem_postFiles_id (s : Registry) (fs : List (UploadedFile × String)) (r : FileRecord)
    (h : r ∈ (postFiles s fs).2) : s.idCounter ≤ r.id ∧ r.id < s.idCounter + fs.length := by
  have hm : r.id ∈ ids (postFiles s fs).2 := List.mem_map_of_mem _ h
  rw [postFiles_ids, List.mem_range'_1] at hm
  exact hm

theorem mimetypeOrDefault_some (m : String) (h : m ≠ "") : mimetypeOrDefault (some m) = m := by
  simp [mimetypeOrDefault, h]

/-! ## The delete handler -/

theorem deleteFile_DB (s : Registry) (id : PathId) :
    (deleteFile s id).1.DB = s.DB.filter (fun f => idNe f.id id) := rfl

theorem deleteFile_idCounter (s : Registry) (id : PathId) :
    (deleteFile s id).1.idCounter = s.idCounter := rfl

theorem idNe_nat (a n : Nat) : idNe a (PathId.nat n) = true ↔ a ≠ n := by
  simp [idNe]

theorem filter_idNe_of_absent (l : List FileRecord) (id : PathId)
    (h : ∀ r ∈ l, PathId.nat r.id ≠ id) : l.filter (fun f => idNe f.id id) = l := by
  rw [List.filter_eq_self]
  intro r hr
  cases id with
  | other => rfl
  | nat n =>
    rw [idNe_nat]
    intro e
    exact h r hr (by rw [e])

/-- In a list whose ids are pairwise distinct, filtering out the id of one
member removes that member and nothing else. -/
theorem filter_idNe_of_present (l : List FileRecord) (n : Nat) (hn : (ids l).Nodup)
    (r : FileRecord) (hr : r ∈ l) (hid : r.id = n) :
    ∃ pre post, l = pre ++ r :: post ∧
      l.filter (fun f => idNe f.id (PathId.nat n)) = pre ++ post := by
  obtain ⟨pre, post, rfl⟩ := List.append_of_mem hr
  refine ⟨pre, post, rfl, ?_⟩
  simp only [ids, List.map_append, List.map_cons] at hn
  rw [List.nodup_append] at hn
  obtain ⟨_, hpost, hdis⟩ := hn
  rw [List.nodup_cons] at hpost
  have hpre : ∀ x ∈ pre, idNe x.id (PathId.nat n) = true := by
    intro x hx
    rw [idNe_nat]
    intro e
    exact hdis (List.mem_map_of_mem _ hx) (by rw [e, ← hid]; exact List.mem_cons_self _ _)
  have hpst : ∀ x ∈ post, idNe x.id (PathId.nat n) = true := by
    intro x hx
    rw [idNe_nat]
    intro e
    exact hpost.1 (by rw [hid, ← e]; exact List.mem_map_of_mem _ hx)
  have hself : idNe r.id (PathId.nat n) = false := by
    simp [idNe, hid]
  rw [List.filter_append, List.filter_cons, hself]
  simp only [Bool.false_eq_true, if_false]
  rw [List.filter_eq_self.2 hpre, List.filter_eq_self.2 hpst]

/-! ## What every reachable state satisfies -/

theorem inv_seed (t1 t2 : String) : Inv (seed t1 t2) := by
  refine ⟨?_, ?_, ?_, ?_⟩
  · intro r hr
    simp only [seed, List.mem_cons, List.mem_singleton, List.not_mem_nil, or_false] at hr
    rcases hr with rfl | rfl <;> simp [seed]
  · simp [seed, ids]
  · simp [seed]
  · simp [seed]

theorem inv_push (s : Registry) (f : UploadedFile) (t : String) (h : Inv s) :
    Inv { DB := mkItem s.idCounter f t :: s.DB, idCounter := s.idCounter + 1 } := by
  obtain ⟨hlt, hnd, hpw, hc⟩ := h
  refine ⟨?_, ?_, ?_, ?_⟩
  · intro r hr
    rcases List.mem_cons.1 hr with rfl | hr
    · exact Nat.lt_succ_self _
    · exact Nat.lt_succ_of_lt (hlt r hr)
  · show (ids (mkItem s.idCounter f t :: s.DB)).Nodup
    simp only [ids, List.map_cons]
    rw [List.nodup_cons]
    refine ⟨?_, hnd⟩
    intro hm
    obtain ⟨r, hr, e⟩ := List.mem_map.1 hm
    have := hlt r hr
    have e2 : r.id = s.idCounter := e
    omega
  · show (mkItem s.idCounter f t :: s.DB).Pairwise _
    rw [List.pairwise_cons]
    refine ⟨?_, hpw⟩
    intro b hb _
    exact hlt b hb
  · show 100 ≤ s.idCounter + 1
    omega

theorem inv_postFiles (fs : List (UploadedFile × String)) :
    ∀ s : Registry, Inv s → Inv (postFiles s fs).1 := by
  induction fs with
  | nil => intro s h; exact h
  | cons p rest ih =>
    intro s h
    obtain ⟨f, t⟩ := p
    rw [postFiles_cons]
    exact ih _ (inv_push s f t h)

theorem inv_deleteFile (s : Registry) (id : PathId) (h : Inv s) : Inv (deleteFile s id).1 := by
  obtain ⟨hlt, hnd, hpw, hc⟩ := h
  refine ⟨?_, ?_, ?_, hc⟩
  · intro r hr
    exact hlt r (List.mem_of_mem_filter hr)
  · exact hnd.sublist (List.Sublist.map _ (List.filter_sublist _))
  · exact hpw.sublist (List.filter_sublist _)

theorem inv_step (s : Registry) (o : Op) (h : Inv s) : Inv (step s o).1 := by
  cases o with
  | list => exact h
  | upload fs => exact inv_postFiles fs s h
  | delete i => exact inv_deleteFile s i h

theorem runTrace_cons (s : Registry) (o : Op) (os : List Op) :
    runTrace s (o :: os) =
      ((runTrace (step s o).1 os).1, (o, (step s o).2) :: (runTrace (step s o).1 os).2) := rfl

theorem inv_runTrace (ops : List Op) : ∀ s : Registry, Inv s → Inv (runTrace s ops).1 := by
  induction ops with
  | nil => intro s h; exact h
  | cons o os ih =>
    intro s h
    rw [runTrace_cons]
    exact ih _ (inv_step s o h)

theorem inv_run (t1 t2 : String) (ops : List Op) : Inv (run (seed t1 t2) ops) :=
  inv_runTrace ops _ (inv_seed t1 t2)

/-! ## Traces -/

theorem returned_step (s : Registry) (o : Op) (tr : List (Op × Response)) :
    returned ((o, (step s o).2) :: tr) = issuedBy s o ++ returned tr := by
  cases o <;> rfl

theorem mem_issuedBy (s : Registry) (o : Op) (r : FileRecord) (h : r ∈ issuedBy s o) :
    s.idCounter ≤ r.id ∧ r.id < (step s o).1.idCounter := by
  cases o with
  | list => simp [issuedBy] at h
  | delete i => simp [issuedBy] at h
  | upload fs =>
    have hb := mem_postFiles_id s fs r h
    have hc : (step s (Op.upload fs)).1.idCounter = s.idCounter + fs.length :=
      postFiles_idCounter fs s
    omega

theorem issuedBy_nodup (s : Registry) (o : Op) : (ids (issuedBy s o)).Nodup := by
  cases o with
  | list => simp [issuedBy, ids]
  | delete i => simp [issuedBy, ids]
  | upload fs =>
    show (ids (postFiles s fs).2).Nodup
    rw [postFiles_ids]
    exact List.nodup_range' _ _

theorem step_counter_le (s : Registry) (o : Op) : s.idCounter ≤ (step s o).1.idCounter := by
  cases o with
  | list => exact Nat.le_refl _
  | delete i => exact Nat.le_refl _
  | upload fs =>
    have hc : (step s (Op.upload fs)).1.idCounter = s.idCounter + fs.length :=
      postFiles_idCounter fs s
    omega

theorem mem_step_DB (s : Registry) (o : Op) (r : FileRecord) (h : r ∈ (step s o).1.DB) :
    r ∈ s.DB ∨ r ∈ issuedBy s o := by
  cases o with
  | list => exact Or.inl h
  | delete i => exact Or.inl (List.mem_of_mem_filter h)
  | upload fs =>
    have hd : (step s (Op.upload fs)).1.DB = (postFiles s fs).2.reverse ++ s.DB :=
      postFiles_DB fs s
    rw [hd, List.mem_append, List.mem_reverse] at h
    exact h.symm

theorem runTrace_counter_le (ops : List Op) :
    ∀ s : Registry, s.idCounter ≤ (runTrace s ops).1.idCounter := by
  induction ops with
  | nil => intro s; exact Nat.le_refl _
  | cons o os ih =>
    intro s
    rw [runTrace_cons]
    exact Nat.le_trans (step_counter_le s o) (ih _)

theorem returned_bounds (ops : List Op) :
    ∀ (s : Registry) (r : FileRecord), r ∈ returned (runTrace s ops).2 →
      s.idCounter ≤ r.id ∧ r.id < (runTrace s ops).1.idCounter := by
  induction ops with
  | nil => intro s r h; simp [runTrace, returned] at h
  | cons o os ih =>
    intro s r h
    rw [runTrace_cons] at h ⊢
    simp only [returned_step, List.mem_append] at h
    have h1 := step_counter_le s o
    have h2 := runTrace_counter_le os (step s o).1
    rcases h with h | h
    · have := mem_issuedBy s o r h
      exact ⟨this.1, Nat.lt_of_lt_of_le this.2 h2⟩
    · have := ih _ r h
      exact ⟨Nat.le_trans h1 this.1, this.2⟩

theorem returned_nodup (ops : List Op) :
    ∀ s : Registry, (ids (returned (runTrace s ops).2)).Nodup := by
  induction ops with
  | nil => intro s; simp [runTrace, returned, ids]
  | cons o os ih =>
    intro s
    rw [runTrace_cons]
    simp only [returned_step, ids, List.map_append]
    rw [List.nodup_append]
    refine ⟨issuedBy_nodup s o, ih _, ?_⟩
    intro n hn hm
    obtain ⟨a, ha, ea⟩ := List.mem_map.1 hn
    obtain ⟨b, hb, eb⟩ := List.mem_map.1 hm
    have h1 := mem_issuedBy s o a ha
    have h2 := returned_bounds os _ b hb
    have e1 : a.id = n := ea
    have e2 : b.id = n := eb
    omega

theorem issuedBy_increasing (s : Registry) (o : Op) :
    (ids (issuedBy s o)).Pairwise (fun a b => a < b) := by
  cases o with
  | list => simp [issuedBy, ids]
  | delete i => simp [issuedBy, ids]
  | upload fs =>
    show (ids (postFiles s fs).2).Pairwise _
    rw [postFiles_ids]
    exact List.pairwise_lt_range' _ _

theorem returned_increasing (ops : List Op) :
    ∀ s : Registry, (ids (returned (runTrace s ops).2)).Pairwise (fun a b => a < b) := by
  induction ops with
  | nil => intro s; simp [runTrace, returned, ids]
  | cons o os ih =>
    intro s
    rw [runTrace_cons]
    simp only [returned_step, ids, List.map_append]
    rw [List.pairwise_append]
    refine ⟨issuedBy_increasing s o, ih _, ?_⟩
    intro n hn m hm
    obtain ⟨a, ha, ea⟩ := List.mem_map.1 hn
    obtain ⟨b, hb, eb⟩ := List.mem_map.1 hm
    have h1 := mem_issuedBy s o a ha
    have h2 := returned_bounds os _ b hb
    have e1 : a.id = n := ea
    have e2 : b.id = m := eb
    omega

theorem mem_runTrace_DB (ops : List Op) :
    ∀ (s : Registry) (r : FileRecord), r ∈ (runTrace s ops).1.DB →
      r ∈ s.DB ∨ r ∈ returned (runTrace s ops).2 := by
  induction ops with
  | nil => intro s r h; exact Or.inl h
  | cons o os ih =>
    intro s r h
    rw [runTrace_cons] at h ⊢
    simp only [returned_step, List.mem_append]
    rcases ih _ r h with h | h
    · rcases mem_step_DB s o r h with h | h
      · exact Or.inl h
      · exact Or.inr (Or.inl h)
    · exact Or.inr (Or.inr h)
/-! ## The claims -/

/-- C1. Id uniqueness: from the seed state, after every finite sequence of
list, upload and delete requests the ids of the records in DB are pairwise
distinct. -/
theorem ids_nodup_of_run (t1 t2 : String) (ops : List Op) :
    (ids (run (seed t1 t2) ops).DB).Nodup :=
  (inv_run t1 t2 ops).2.1

/-- C2. After every sequence of requests from the seed state, idCounter is
strictly greater than the id of every record in DB, of every seed record and
of every record returned by an earlier upload; the ids returned by the uploads
of the sequence strictly increase in the order of issue, hence are pairwise
distinct, and whatever a further upload returns carries an id that no earlier
upload returned and that no record of DB has. -/
theorem idCounter_above_issued (t1 t2 : String) (ops : List Op) :
    (∀ r ∈ (runTrace (seed t1 t2) ops).1.DB, r.id < (runTrace (seed t1 t2) ops).1.idCounter) ∧
    (∀ r ∈ (seed t1 t2).DB, r.id < (runTrace (seed t1 t2) ops).1.idCounter) ∧
    (∀ r ∈ returned (runTrace (seed t1 t2) ops).2,
      r.id < (runTrace (seed t1 t2) ops).1.idCounter) ∧
    (ids (returned (runTrace (seed t1 t2) ops).2)).Pairwise (fun a b => a < b) ∧
    (ids (returned (runTrace (seed t1 t2) ops).2)).Nodup ∧
    (∀ (fs : List (UploadedFile × String)),
      ∀ r ∈ (postFiles (runTrace (seed t1 t2) ops).1 fs).2,
        r.id ∉ ids (returned (runTrace (seed t1 t2) ops).2) ∧
        r.id ∉ ids (runTrace (seed t1 t2) ops).1.DB) := by
  have hinv := inv_runTrace ops _ (inv_seed t1 t2)
  have hret := returned_bounds ops (seed t1 t2)
  refine ⟨hinv.1, ?_, fun r hr => (hret r hr).2, returned_increasing ops _,
    returned_nodup ops _, ?_⟩
  · intro r hr
    have h1 := (inv_seed t1 t2).1 r hr
    have h2 := runTrace_counter_le ops (seed t1 t2)
    omega
  · intro fs r hr
    have hb := (mem_postFiles_id _ fs r hr).1
    constructor
    · intro hm
      obtain ⟨x, hx, ex⟩ := List.mem_map.1 hm
      have := (hret x hx).2
      have e : x.id = r.id := ex
      omega
    · intro hm
      obtain ⟨x, hx, ex⟩ := List.mem_map.1 hm
      have := hinv.1 x hx
      have e : x.id = r.id := ex
      omega

/-- C2, on a trace that deletes an issued id before the next upload: the
uploads issue 100 and then 101, the deleted id 100 is not issued again. -/
theorem idCounter_above_issued_witness :
    ids (returned (runTrace (seed "" "")
      [Op.upload [sampleUpload], Op.delete (PathId.nat 100), Op.upload [sampleUpload]]).2) =
      [100, 101] ∧
    ids (runTrace (seed "" "")
      [Op.upload [sampleUpload], Op.delete (PathId.nat 100), Op.upload [sampleUpload]]).1.DB =
      [101, 1, 2] ∧
    (∀ r ∈ returned (runTrace (seed "" "")
      [Op.upload [sampleUpload], Op.delete (PathId.nat 100), Op.upload [sampleUpload]]).2,
      r.id < (runTrace (seed "" "")
        [Op.upload [sampleUpload], Op.delete (PathId.nat 100),
          Op.upload [sampleUpload]]).1.idCounter) ∧
    (ids (returned (runTrace (seed "" "")
      [Op.upload [sampleUpload], Op.delete (PathId.nat 100), Op.upload [sampleUpload]]).2)).Nodup :=
  have h := idCounter_above_issued "" ""
    [Op.upload [sampleUpload], Op.delete (PathId.nat 100), Op.upload [sampleUpload]]
  ⟨rfl, rfl, h.2.2.1, h.2.2.2.2.1⟩

/-- C3. With counter value c, an upload of n files returns exactly n records,
in processing order; the record at (zero-based) position k has id c + k, the
original name, the size and the timestamp of the k-th file, and as type the
declared type of that file, or application/octet-stream when the declared type
is missing or the empty string. -/
theorem postFiles_returns (s : Registry) (fs : List (UploadedFile × String)) :
    (postFiles s fs).2.length = fs.length ∧
    ∀ (k : Nat) (f : UploadedFile) (t : String), fs[k]? = some (f, t) →
      ∃ rec, (postFiles s fs).2[k]? = some rec ∧
        rec.id = s.idCounter + k ∧ rec.name = f.originalname ∧ rec.size = f.size ∧
        rec.createdAt = t ∧
        (f.mimetype = none ∨ f.mimetype = some "" → rec.type = "application/octet-stream") ∧
        (∀ m, f.mimetype = some m → m ≠ "" → rec.type = m) := by
  refine ⟨postFiles_length fs s, ?_⟩
  intro k f t h
  refine ⟨mkItem (s.idCounter + k) f t, ?_, rfl, rfl, rfl, rfl, ?_, ?_⟩
  · rw [postFiles_getElem?, h]; rfl
  · intro hm
    rcases hm with hm | hm <;> simp [mkItem, mimetypeOrDefault, hm]
  · intro m hm hne
    simp only [mkItem, hm]
    exact mimetypeOrDefault_some m hne

/-- C3, on the seed state with one file: the answer has one record, with id
100 and the declared type of the file. -/
theorem postFiles_returns_witness :
    [sampleUpload][0]? = some sampleUpload ∧
    ∃ rec, (postFiles (seed "" "") [sampleUpload]).2[0]? = some rec ∧
      rec.id = 100 ∧ rec.name = "a.txt" ∧ rec.size = 10 ∧ rec.type = "text/plain" := by
  refine ⟨rfl, ?_⟩
  obtain ⟨rec, h1, h2, h3, h4, _, _, h6⟩ :=
    (postFiles_returns (seed "" "") [sampleUpload]).2 0 sampleUpload.1 sampleUpload.2 rfl
  exact ⟨rec, h1, h2, h3, h4, h6 "text/plain" rfl (by decide)⟩

/-- C4. After an upload DB is the returned array reversed, followed by the
former DB unchanged; DB grows by the number of files and so does idCounter. -/
theorem postFiles_registry (s : Registry) (fs : List (UploadedFile × String)) :
    (postFiles s fs).1.DB = (postFiles s fs).2.reverse ++ s.DB ∧
    (postFiles s fs).1.DB.length = s.DB.length + fs.length ∧
    (postFiles s fs).1.idCounter = s.idCounter + fs.length := by
  refine ⟨postFiles_DB fs s, ?_, postFiles_idCounter fs s⟩
  rw [postFiles_DB, List.length_append, List.length_reverse, postFiles_length]
  omega

/-- C5. An upload without files returns the empty array and leaves DB and
idCounter as they were. -/
theorem postFiles_no_files (s : Registry) :
    (postFiles s []).2 = [] ∧ (postFiles s []).1 = s ∧
    (postFiles s []).1.DB = s.DB ∧ (postFiles s []).1.DB.length = s.DB.length ∧
    (postFiles s []).1.idCounter = s.idCounter :=
  ⟨rfl, rfl, rfl, rfl, rfl⟩

/-- C6. In a state reached from the seed state, deleting the id of a record r
of DB is answered with ok true and removes exactly r: DB splits as pre, r,
post and becomes pre followed by post, its length drops by one, no record
with that id remains, and idCounter is unchanged. -/
theorem deleteFile_present (t1 t2 : String) (ops : List Op) (r : FileRecord)
    (hr : r ∈ (run (seed t1 t2) ops).DB) :
    (deleteFile (run (seed t1 t2) ops) (PathId.nat r.id)).2 = { ok := true } ∧
    (deleteFile (run (seed t1 t2) ops) (PathId.nat r.id)).1.DB.length + 1 =
      (run (seed t1 t2) ops).DB.length ∧
    (∀ x ∈ (deleteFile (run (seed t1 t2) ops) (PathId.nat r.id)).1.DB, x.id ≠ r.id) ∧
    (∃ pre post, (run (seed t1 t2) ops).DB = pre ++ r :: post ∧
      (deleteFile (run (seed t1 t2) ops) (PathId.nat r.id)).1.DB = pre ++ post) ∧
    (deleteFile (run (seed t1 t2) ops) (PathId.nat r.id)).1.idCounter =
      (run (seed t1 t2) ops).idCounter := by
  obtain ⟨pre, post, h1, h2⟩ :=
    filter_idNe_of_present _ r.id (inv_run t1 t2 ops).2.1 r hr rfl
  refine ⟨rfl, ?_, ?_, ⟨pre, post, h1, h2⟩, rfl⟩
  · rw [deleteFile_DB, h2, h1]
    simp only [List.length_append, List.length_cons]
    omega
  · intro x hx
    rw [deleteFile_DB] at hx
    exact (idNe_nat _ _).1 (List.mem_filter.1 hx).2

/-- C6, after one upload on the seed state: deleting the first seed record
shortens DB from three records to two. -/
theorem deleteFile_present_witness :
    sampleSeedRecord ∈ (run (seed "" "") [Op.upload [sampleUpload]]).DB ∧
    (deleteFile (run (seed "" "") [Op.upload [sampleUpload]]) (PathId.nat 1)).2 = { ok := true } ∧
    (deleteFile (run (seed "" "") [Op.upload [sampleUpload]]) (PathId.nat 1)).1.DB.length + 1 =
      (run (seed "" "") [Op.upload [sampleUpload]]).DB.length :=
  have hr : sampleSeedRecord ∈ (run (seed "" "") [Op.upload [sampleUpload]]).DB :=
    List.Mem.tail _ (List.Mem.head _)
  have h := deleteFile_present "" "" [Op.upload [sampleUpload]] sampleSeedRecord hr
  ⟨hr, h.1, h.2.1⟩

/-- C7. Deleting an id that no record of DB carries is answered with ok true,
the answer every delete gives, and leaves the registry as it was: same DB
(content and length) and same idCounter. -/
theorem deleteFile_absent (s : Registry) (id : PathId)
    (h : ∀ r ∈ s.DB, PathId.nat r.id ≠ id) :
    (deleteFile s id).2 = { ok := true } ∧
    (∀ (s2 : Registry) (id2 : PathId), (deleteFile s id).2 = (deleteFile s2 id2).2) ∧
    (deleteFile s id).1 = s ∧
    (deleteFile s id).1.DB = s.DB ∧ (deleteFile s id).1.DB.length = s.DB.length ∧
    (deleteFile s id).1.idCounter = s.idCounter := by
  have hdb : (deleteFile s id).1.DB = s.DB := filter_idNe_of_absent s.DB id h
  refine ⟨rfl, fun _ _ => rfl, ?_, hdb, by rw [hdb], rfl⟩
  cases s with
  | mk db c =>
    have e : db.filter (fun f => idNe f.id id) = db := hdb
    show Registry.mk (db.filter (fun f => idNe f.id id)) c = Registry.mk db c
    rw [e]

/-- C7, on the seed state with the id 999. -/
theorem deleteFile_absent_witness :
    (∀ r ∈ (seed "" "").DB, PathId.nat r.id ≠ PathId.nat 999) ∧
    (deleteFile (seed "" "") (PathId.nat 999)).2 = { ok := true } ∧
    (deleteFile (seed "" "") (PathId.nat 999)).1 = seed "" "" :=
  have h : ∀ r ∈ (seed "" "").DB, PathId.nat r.id ≠ PathId.nat 999 := by
    intro r hr
    simp only [seed, List.mem_cons, List.mem_singleton, List.not_mem_nil, or_false] at hr
    rcases hr with rfl | rfl <;> simp
  have c := deleteFile_absent (seed "" "") (PathId.nat 999) h
  ⟨h, c.1, c.2.2.1⟩

/-- C8. The scenario on the seed state (ids 1 and 2, counter 100): uploading
a.txt of 10 bytes and type text/plain returns one record with id 100 and
these fields, and the ids of DB become 100, 1, 2; deleting id 1 is answered
with ok true and the ids become 100, 2; deleting id 999 is answered with ok
true and DB stays as it was, with ids 100, 2. -/
theorem scenario (t1 t2 now : String) :
    ids (seed t1 t2).DB = [1, 2] ∧ (seed t1 t2).idCounter = 100 ∧
    (postFiles (seed t1 t2)
      [({ originalname := "a.txt", size := 10, mimetype := some "text/plain" }, now)]).2 =
      [{ id := 100, name := "a.txt", size := 10, createdAt := now, type := "text/plain" }] ∧
    ids (postFiles (seed t1 t2)
      [({ originalname := "a.txt", size := 10, mimetype := some "text/plain" }, now)]).1.DB =
      [100, 1, 2] ∧
    (deleteFile (postFiles (seed t1 t2)
      [({ originalname := "a.txt", size := 10, mimetype := some "text/plain" }, now)]).1
      (PathId.nat 1)).2 = { ok := true } ∧
    ids (deleteFile (postFiles (seed t1 t2)
      [({ originalname := "a.txt", size := 10, mimetype := some "text/plain" }, now)]).1
      (PathId.nat 1)).1.DB = [100, 2] ∧
    (deleteFile (deleteFile (postFiles (seed t1 t2)
      [({ originalname := "a.txt", size := 10, mimetype := some "text/plain" }, now)]).1
      (PathId.nat 1)).1 (PathId.nat 999)).2 = { ok := true } ∧
    (deleteFile (deleteFile (postFiles (seed t1 t2)
      [({ originalname := "a.txt", size := 10, mimetype := some "text/plain" }, now)]).1
      (PathId.nat 1)).1 (PathId.nat 999)).1.DB =
      (deleteFile (postFiles (seed t1 t2)
        [({ originalname := "a.txt", size := 10, mimetype := some "text/plain" }, now)]).1
        (PathId.nat 1)).1.DB ∧
    ids (deleteFile (deleteFile (postFiles (seed t1 t2)
      [({ originalname := "a.txt", size := 10, mimetype := some "text/plain" }, now)]).1
      (PathId.nat 1)).1 (PathId.nat 999)).1.DB = [100, 2] :=
  ⟨rfl, rfl, rfl, rfl, rfl, rfl, rfl, rfl, rfl⟩

/-- C9. Newest first: after every sequence of requests from the seed state,
the records with an id below 100 are seed records and those with an id of at
least 100 were returned by an upload (and conversely); uploads issue ids in
strictly increasing order, so a larger id means a later insertion; in DB no
seed record stands in front of an uploaded one, and the ids of the uploaded
records strictly decrease from front to back. -/
theorem newest_first (t1 t2 : String) (ops : List Op) :
    (∀ r ∈ (runTrace (seed t1 t2) ops).1.DB,
      (r.id < 100 → r ∈ (seed t1 t2).DB) ∧
      (100 ≤ r.id → r ∈ returned (runTrace (seed t1 t2) ops).2)) ∧
    (∀ r ∈ (seed t1 t2).DB, r.id < 100) ∧
    (∀ r ∈ returned (runTrace (seed t1 t2) ops).2, 100 ≤ r.id) ∧
    (ids (returned (runTrace (seed t1 t2) ops).2)).Pairwise (fun a b => a < b) ∧
    (runTrace (seed t1 t2) ops).1.DB.Pairwise (fun a b => 100 ≤ b.id → 100 ≤ a.id) ∧
    (runTrace (seed t1 t2) ops).1.DB.Pairwise
      (fun a b => 100 ≤ a.id → 100 ≤ b.id → b.id < a.id) := by
  have hseed : ∀ r ∈ (seed t1 t2).DB, r.id < 100 := (inv_seed t1 t2).1
  have hret : ∀ r ∈ returned (runTrace (seed t1 t2) ops).2, 100 ≤ r.id :=
    fun r hr => (returned_bounds ops (seed t1 t2) r hr).1
  have hpw := (inv_runTrace ops _ (inv_seed t1 t2)).2.2.1
  refine ⟨?_, hseed, hret, returned_increasing ops _, ?_, ?_⟩
  · intro r hr
    rcases mem_runTrace_DB ops _ r hr with h | h
    · refine ⟨fun _ => h, fun h100 => ?_⟩
      have := hseed r h
      omega
    · refine ⟨fun hlt => ?_, fun _ => h⟩
      have := hret r h
      omega
  · refine hpw.imp ?_
    intro a b hab hb
    have := hab hb
    omega
  · refine hpw.imp ?_
    intro a b hab _ hb
    exact hab hb

/-- C9, on a trace with two uploads around a delete of a seed record: DB
holds the ids 102, 101, 100, 2 in this order. -/
theorem newest_first_witness :
    ids (runTrace (seed "" "")
      [Op.upload [sampleUpload, sampleUpload], Op.delete (PathId.nat 1),
        Op.upload [sampleUpload]]).1.DB = [102, 101, 100, 2] ∧
    (runTrace (seed "" "")
      [Op.upload [sampleUpload, sampleUpload], Op.delete (PathId.nat 1),
        Op.upload [sampleUpload]]).1.DB.Pairwise (fun a b => 100 ≤ b.id → 100 ≤ a.id) ∧
    (runTrace (seed "" "")
      [Op.upload [sampleUpload, sampleUpload], Op.delete (PathId.nat 1),
        Op.upload [sampleUpload]]).1.DB.Pairwise
      (fun a b => 100 ≤ a.id → 100 ≤ b.id → b.id < a.id) :=
  have h := newest_first "" ""
    [Op.upload [sampleUpload, sampleUpload], Op.delete (PathId.nat 1), Op.upload [sampleUpload]]
  ⟨rfl, h.2.2.2.2.1, h.2.2.2.2.2⟩

/-- C10. One upload of the files P1 .. Pn and n uploads of one file each, in
the same order and with the same timestamps, end in the same DB and the same
idCounter, and the array the single upload returns is the answers of the n
uploads joined in order. -/
theorem batch_eq_singles (fs : List (UploadedFile × String)) :
    ∀ s : Registry,
      (runTrace s (fs.map (fun p => Op.upload [p]))).1 = (postFiles s fs).1 ∧
      returned (runTrace s (fs.map (fun p => Op.upload [p]))).2 = (postFiles s fs).2 := by
  induction fs with
  | nil => intro s; exact ⟨rfl, rfl⟩
  | cons p rest ih =>
    intro s
    obtain ⟨f, t⟩ := p
    rw [List.map_cons, runTrace_cons, postFiles_cons]
    simp only [returned_step]
    have e : (step s (Op.upload [(f, t)])).1 =
        { DB := mkItem s.idCounter f t :: s.DB, idCounter := s.idCounter + 1 } := rfl
    rw [e]
    obtain ⟨h1, h2⟩ := ih { DB := mkItem s.idCounter f t :: s.DB, idCounter := s.idCounter + 1 }
    refine ⟨h1, ?_⟩
    rw [h2]
    rfl

end MockServer
